import Mathlib

/-
Verification of the TinyPay off-chain payment-preparation scripts:
the iterated hash chain and Move-parameter workflow of
scripts/complete_workflow.py, the hex-to-ASCII bridge of
scripts/hex_to_ascii_bytes.py, and the BCS-like canonical encoder of
scripts/move_compatible_hash.py.

Integers are modelled as Nat or Int with explicit reduction modulo
powers of two where the code relies on fixed-width arithmetic; Python
exceptions are modelled by an explicit error type; text is modelled as
Lean String (a sequence of Unicode code points, as in Python).
-/

namespace TinyPay

/-! ## The external hash primitive

The scripts call hashlib.sha256, an external capability: a full
executable model of FIPS 180-4 SHA-256 over byte lists, so that every
definition below is computable. -/

/-- Reduce a natural number to a 32-bit machine word. -/
def w32 (n : Nat) : Nat := n % 4294967296

/-- Rotate a 32-bit word right by k bits. -/
def rotr32 (k x : Nat) : Nat := w32 ((x >>> k) ||| (x <<< (32 - k)))

/-- The SHA-256 choice function on 32-bit words. -/
def shaCh (x y z : Nat) : Nat := (x &&& y) ^^^ ((x ^^^ 4294967295) &&& z)

/-- The SHA-256 majority function on 32-bit words. -/
def shaMaj (x y z : Nat) : Nat := (x &&& y) ^^^ (x &&& z) ^^^ (y &&& z)

/-- Upper-case sigma-0 of SHA-256. -/
def bsig0 (x : Nat) : Nat := rotr32 2 x ^^^ rotr32 13 x ^^^ rotr32 22 x

/-- Upper-case sigma-1 of SHA-256. -/
def bsig1 (x : Nat) : Nat := rotr32 6 x ^^^ rotr32 11 x ^^^ rotr32 25 x

/-- Lower-case sigma-0 of SHA-256. -/
def ssig0 (x : Nat) : Nat := rotr32 7 x ^^^ rotr32 18 x ^^^ (x >>> 3)

/-- Lower-case sigma-1 of SHA-256. -/
def ssig1 (x : Nat) : Nat := rotr32 17 x ^^^ rotr32 19 x ^^^ (x >>> 10)

/-- The 64 SHA-256 round constants. -/
def shaK : List Nat :=
  [1116352408, 1899447441, 3049323471, 3921009573, 961987163, 1508970993,
   2453635748, 2870763221, 3624381080, 310598401, 607225278, 1426881987,
   1925078388, 2162078206, 2614888103, 3248222580, 3835390401, 4022224774,
   264347078, 604807628, 770255983, 1249150122, 1555081692, 1996064986,
   2554220882, 2821834349, 2952996808, 3210313671, 3336571891, 3584528711,
   113926993, 338241895, 666307205, 773529912, 1294757372, 1396182291,
   1695183700, 1986661051, 2177026350, 2456956037, 2730485921, 2820302411,
   3259730800, 3345764771, 3516065817, 3600352804, 4094571909, 275423344,
   430227734, 506948616, 659060556, 883997877, 958139571, 1322822218,
   1537002063, 1747873779, 1955562222, 2024104815, 2227730452, 2361852424,
   2428436474, 2756734187, 3204031479, 3329325298]

/-- The SHA-256 initial hash state. -/
def shaH0 : List Nat :=
  [1779033703, 3144134277, 1013904242, 2773480762,
   1359893119, 2600822924, 528734635, 1541459225]

/-- Big-endian 32-bit word number t of a 64-byte block. -/
def wordAt (block : List Nat) (t : Nat) : Nat :=
  block.getD (4 * t) 0 * 16777216 + block.getD (4 * t + 1) 0 * 65536 +
    block.getD (4 * t + 2) 0 * 256 + block.getD (4 * t + 3) 0

/-- The 64-entry SHA-256 message schedule of one block. -/
def schedule (block : List Nat) : List Nat :=
  (List.range 64).foldl (fun W t =>
    if t < 16 then W ++ [wordAt block t]
    else W ++ [w32 (ssig1 (W.getD (t - 2) 0) + W.getD (t - 7) 0 +
                    ssig0 (W.getD (t - 15) 0) + W.getD (t - 16) 0)]) []

/-- One SHA-256 compression round on the eight working variables. -/
def shaRound (W : List Nat) (st : List Nat) (t : Nat) : List Nat :=
  match st with
  | [a, b, c, d, e, f, g, h] =>
    let T1 := w32 (h + bsig1 e + shaCh e f g + shaK.getD t 0 + W.getD t 0)
    let T2 := w32 (bsig0 a + shaMaj a b c)
    [w32 (T1 + T2), a, b, c, w32 (d + T1), e, f, g]
  | other => other

/-- Process one 64-byte block, updating the eight-word hash state. -/
def sha256Block (H : List Nat) (block : List Nat) : List Nat :=
  let W := schedule block
  let final := (List.range 64).foldl (shaRound W) H
  (H.zip final).map (fun p => w32 (p.1 + p.2))

/-- Big-endian 8-byte encoding of the bit length. -/
def be8 (n : Nat) : List Nat := (List.range 8).map (fun i => n / 256 ^ (7 - i) % 256)

/-- Big-endian 4-byte encoding of a 32-bit word. -/
def be4 (n : Nat) : List Nat := (List.range 4).map (fun i => n / 256 ^ (3 - i) % 256)

/-- SHA-256 padding: append 0x80, zeros up to 56 mod 64, then the bit length. -/
def padMessage (msg : List Nat) : List Nat :=
  let L := msg.length
  let k := (120 - (L + 1) % 64) % 64
  msg ++ [128] ++ List.replicate k 0 ++ be8 (8 * L)

/-- Fuel-indexed splitting of a byte list into 64-byte chunks. -/
def toBlocksAux : Nat → List Nat → List (List Nat)
  | 0, _ => []
  | _, [] => []
  | fuel + 1, l => l.take 64 :: toBlocksAux fuel (l.drop 64)

/-- Split a padded message into 64-byte blocks. -/
def toBlocks (l : List Nat) : List (List Nat) := toBlocksAux l.length l

/-- SHA-256 of a byte sequence, as 32 bytes. Models hashlib.sha256(msg).digest();
validated against the FIPS 180-4 test vectors for the empty message and for
the three-byte message abc. -/
def sha256 (msg : List Nat) : List Nat :=
  ((toBlocks (padMessage msg)).foldl sha256Block shaH0).flatMap be4

/-- Lowercase hexadecimal digit character for a value below 16. -/
def hexDigitChar (n : Nat) : Char := "0123456789abcdef".data.getD n '0'

/-- Lowercase hexadecimal text of a byte sequence, two digits per byte. -/
def bytesToHexChars (bs : List Nat) : List Char :=
  bs.flatMap (fun b => [hexDigitChar (b / 16), hexDigitChar (b % 16)])

/-- Models hashlib.sha256(msg).hexdigest(): lowercase hex text of the digest. -/
def sha256Hex (msg : List Nat) : String := String.mk (bytesToHexChars (sha256 msg))

/-! ## Python text primitives used by the scripts -/

/-- UTF-8 encoding of one Unicode code point, as Python str.encode() emits it. -/
def utf8EncodeChar (c : Char) : List Nat :=
  let n := c.toNat
  if n < 128 then [n]
  else if n < 2048 then [192 + n / 64, 128 + n % 64]
  else if n < 65536 then [224 + n / 4096, 128 + n / 64 % 64, 128 + n % 64]
  else [240 + n / 262144, 128 + n / 4096 % 64, 128 + n / 64 % 64, 128 + n % 64]

/-- UTF-8 encoding of a code-point sequence: models Python str.encode(). -/
def utf8Encode (cs : List Char) : List Nat := cs.flatMap utf8EncodeChar

/-- Models Python str.encode(ascii): the code points themselves when every
character is ASCII, and a UnicodeEncodeError (none) otherwise. -/
def pyEncodeAscii (s : String) : Option (List Nat) :=
  if s.data.all (fun c => c.toNat ≤ 127) then some (s.data.map Char.toNat) else none

/-! ## scripts/hex_to_ascii_bytes.py -/

/-- Embeds hex_to_ascii_bytes (hex_to_ascii_bytes.py lines 24 to 34): strip one
leading 0x if present, then map every remaining character to its code point. -/
def hex_to_ascii_bytes (hex_string : String) : List Nat :=
  let stripped :=
    if hex_string.data.take 2 = ['0', 'x'] then hex_string.data.drop 2 else hex_string.data
  stripped.map Char.toNat

/-! ## scripts/complete_workflow.py -/

/-- Kinds of Python exception the embedded scripts can raise: list indexing out
of range, str.encode(ascii) on non-ASCII text, ValueError with its message
text, and int.to_bytes overflow. -/
inductive PyErr where
  | indexError
  | unicodeEncodeError
  | valueError (msg : String)
  | overflowError
deriving DecidableEq

/-- Embeds the iteration loop of complete_payment_workflow
(complete_workflow.py lines 27 to 37): hash the current byte string, record the
lowercase hex digest, and continue from the ASCII bytes of that hex text. The
h.encode(ascii) in the loop cannot fail because a hexdigest is ASCII, so it is
the plain code-point map here. -/
def run_chain (s : List Nat) : Nat → List String
  | 0 => []
  | n + 1 =>
    let h := sha256Hex s
    h :: run_chain (h.data.map Char.toNat) n

/-- Embeds Step 2 of complete_payment_workflow (complete_workflow.py lines 42
to 47). Python indexes results[-2] and results[-1], which raise IndexError
exactly when the list is shorter than 2, and results[0], which raises when it
is empty; the defaults of getD are unreachable under the length guard. -/
def selectParams (initial_data : String) (results : List String) (iterations : Nat) :
    Except PyErr (String × String) :=
  if 1 < iterations then
    if 2 ≤ results.length then
      .ok (results.getD (results.length - 2) "", results.getD (results.length - 1) "")
    else .error .indexError
  else
    match results.head? with
    | some t => .ok (initial_data, t)
    | none => .error .indexError

/-- The fields of the result dict of complete_payment_workflow that carry
computational content. The opt_json, tail_json and aptos format fields are
pure decimal renderings of opt_ascii_bytes and tail_ascii_bytes and are not
modelled. -/
structure WorkflowResult where
  opt_hex : String
  tail_hex : String
  opt_ascii_bytes : List Nat
  tail_ascii_bytes : List Nat
  verification_ok : Bool
deriving DecidableEq

/-- Embeds complete_payment_workflow (complete_workflow.py lines 10 to 88):
UTF-8 encode the seed, run the iteration loop, select the opt and tail hex
digests, bridge them to ASCII bytes, then recompute the hash of the ASCII
encoding of opt_hex and compare it with tail_hex. The print calls are
presentation only and are not modelled. -/
def complete_payment_workflow (initial_data : String) (iterations : Nat) :
    Except PyErr WorkflowResult :=
  let s := utf8Encode initial_data.data
  let iteration_results := run_chain s iterations
  match selectParams initial_data iteration_results iterations with
  | .error e => .error e
  | .ok (opt_hex, tail_hex) =>
    let opt_ascii_bytes := hex_to_ascii_bytes opt_hex
    let tail_ascii_bytes := hex_to_ascii_bytes tail_hex
    match pyEncodeAscii opt_hex with
    | none => .error .unicodeEncodeError
    | some opt_ascii =>
      let verification_hash := sha256Hex opt_ascii
      .ok { opt_hex := opt_hex, tail_hex := tail_hex,
            opt_ascii_bytes := opt_ascii_bytes,
            tail_ascii_bytes := tail_ascii_bytes,
            verification_ok := verification_hash == tail_hex }

/-! ## scripts/move_compatible_hash.py -/

/-- The Python runtime values that serialize_to_bcs_like inspects with
isinstance: bool (checked before int, since Python bool is an int subtype),
int, str, bytes, list, dict, and one representative unsupported value (None)
reaching the final else branch. A dict is its insertion-ordered key-value
pairs; Python dicts never hold a duplicate key. -/
inductive PyValue where
  | bool (b : Bool)
  | int (n : Int)
  | str (s : String)
  | bytes (bs : List Nat)
  | list (xs : List PyValue)
  | dict (kvs : List (String × PyValue))
  | pyNone

/-- Little-endian 8-byte encoding: models n.to_bytes(8, little) for n below
2 to the 64. -/
def toLE8 (n : Nat) : List Nat := (List.range 8).map (fun j => n / 256 ^ j % 256)

/-- Python string comparison used by sorted(data.keys()): lexicographic on
code points, which is exactly the Lean String order. -/
def keyLE (a b : String × PyValue) : Bool := a.1 ≤ b.1

/-- A permutation of a list preserves its sizeOf measure. -/
theorem perm_sizeOf_eq {α : Type} [SizeOf α] {l₁ l₂ : List α} (h : l₁.Perm l₂) :
    sizeOf l₁ = sizeOf l₂ := by
  induction h with
  | nil => rfl
  | cons x _ ih => simp [ih]
  | swap x y l => simp; omega
  | trans _ _ ih₁ ih₂ => omega

mutual

/-- Embeds serialize_to_bcs_like (move_compatible_hash.py lines 15 to 50).
The dict branch sorts the key-value pairs by key and concatenates the
serializations of the values, which coincides with the source loop
(for key in sorted(data.keys()): result += serialize(data[key])) because a
Python dict never holds two pairs with the same key. int.to_bytes(8, little)
raises OverflowError for values of at least 2 to the 64; the unsupported-type
message of the final else is reproduced without the class decoration. -/
def serialize_to_bcs_like : PyValue → Except PyErr (List Nat)
  | .bool b => .ok (if b then [1] else [0])
  | .int n =>
    if n < 0 then .error (.valueError "BCS does not support negative integers")
    else if n < 18446744073709551616 then .ok (toLE8 n.toNat)
    else .error .overflowError
  | .str s =>
    let utf8_bytes := utf8Encode s.data
    .ok (toLE8 utf8_bytes.length ++ utf8_bytes)
  | .bytes bs => .ok (toLE8 bs.length ++ bs)
  | .list xs =>
    match serializeSeq xs with
    | .ok body => .ok (toLE8 xs.length ++ body)
    | .error e => .error e
  | .dict kvs => serializeVals (kvs.mergeSort keyLE)
  | .pyNone => .error (.valueError "Unsupported data type for BCS serialization: NoneType")
termination_by v => sizeOf v
decreasing_by
  all_goals simp_wf
  all_goals (have h := perm_sizeOf_eq (List.mergeSort_perm kvs keyLE); omega)

/-- Serialization of the elements of a list, concatenated in order, stopping
at the first error: the loop of the list branch. -/
def serializeSeq : List PyValue → Except PyErr (List Nat)
  | [] => .ok []
  | x :: xs =>
    match serialize_to_bcs_like x, serializeSeq xs with
    | .ok hd, .ok tl => .ok (hd ++ tl)
    | .error e, _ => .error e
    | .ok _, .error e => .error e
termination_by xs => sizeOf xs
decreasing_by
  all_goals simp_wf
  all_goals try omega

/-- Serialization of the values of already-sorted key-value pairs,
concatenated in order, stopping at the first error: the loop of the dict
branch. The keys themselves are never emitted. -/
def serializeVals : List (String × PyValue) → Except PyErr (List Nat)
  | [] => .ok []
  | kv :: kvs =>
    match serialize_to_bcs_like kv.2, serializeVals kvs with
    | .ok hd, .ok tl => .ok (hd ++ tl)
    | .error e, _ => .error e
    | .ok _, .error e => .error e
termination_by kvs => sizeOf kvs
decreasing_by
  all_goals simp_wf
  all_goals (obtain ⟨k, v⟩ := kv; simp_wf; omega)

end

/-- Embeds move_compatible_hash (move_compatible_hash.py lines 53 to 67):
BCS-like serialization followed by one SHA-256, returned as lowercase hex. -/
def move_compatible_hash (data : PyValue) : Except PyErr String :=
  match serialize_to_bcs_like data with
  | .ok bcs_bytes => .ok (sha256Hex bcs_bytes)
  | .error e => .error e

/-! ## Facts about the hex text of a digest -/

theorem hexDigitChar_mem (n : Nat) : hexDigitChar n ∈ "0123456789abcdef".data := by
  by_cases h : n < 16
  · interval_cases n <;> decide
  · rw [hexDigitChar, List.getD_eq_default]
    · decide
    · simpa using Nat.le_of_not_lt h

theorem hexDigitChar_ascii (n : Nat) : (hexDigitChar n).toNat ≤ 127 := by
  have hall : ∀ c ∈ "0123456789abcdef".data, c.toNat ≤ 127 := by decide
  exact hall _ (hexDigitChar_mem n)

theorem bytesToHexChars_mem {bs : List Nat} {c : Char} (h : c ∈ bytesToHexChars bs) :
    c ∈ "0123456789abcdef".data := by
  simp only [bytesToHexChars, List.mem_flatMap, List.mem_cons, List.mem_singleton,
    List.not_mem_nil, or_false] at h
  obtain ⟨b, _, hc⟩ := h
  rcases hc with rfl | rfl
  · exact hexDigitChar_mem _
  · exact hexDigitChar_mem _

theorem bytesToHexChars_length (bs : List Nat) : (bytesToHexChars bs).length = 2 * bs.length := by
  induction bs with
  | nil => rfl
  | cons b bs ih => simp only [bytesToHexChars, List.flatMap_cons] at *; simp [ih]; omega

/-! ## The digest is 32 bytes, hence its hex text is 64 characters -/

theorem shaRound_length (W st : List Nat) (t : Nat) : (shaRound W st t).length = st.length := by
  unfold shaRound; split <;> simp

theorem foldl_shaRound_length (W : List Nat) (l : List Nat) (H : List Nat) :
    (l.foldl (shaRound W) H).length = H.length := by
  induction l generalizing H with
  | nil => rfl
  | cons t l ih => rw [List.foldl_cons, ih, shaRound_length]

theorem sha256Block_length (H b : List Nat) (h : H.length = 8) :
    (sha256Block H b).length = 8 := by
  simp [sha256Block, List.length_zip, foldl_shaRound_length, h]

theorem foldl_sha256Block_length (blocks : List (List Nat)) (H : List Nat) (h : H.length = 8) :
    (blocks.foldl sha256Block H).length = 8 := by
  induction blocks generalizing H with
  | nil => simpa using h
  | cons b bs ih => rw [List.foldl_cons]; exact ih _ (sha256Block_length _ _ h)

theorem flatMap_be4_length (l : List Nat) : (l.flatMap be4).length = 4 * l.length := by
  induction l with
  | nil => rfl
  | cons x l ih => simp [List.flatMap_cons, be4] at *; omega

theorem sha256_length (msg : List Nat) : (sha256 msg).length = 32 := by
  unfold sha256
  rw [flatMap_be4_length, foldl_sha256Block_length _ _ (by decide)]

theorem sha256Hex_length (msg : List Nat) : (sha256Hex msg).length = 64 := by
  show (bytesToHexChars (sha256 msg)).length = 64
  rw [bytesToHexChars_length, sha256_length]

theorem sha256Hex_hexchars (msg : List Nat) :
    ∀ c ∈ (sha256Hex msg).data, c ∈ "0123456789abcdef".data :=
  fun _ hc => bytesToHexChars_mem hc

theorem sha256Hex_ascii (msg : List Nat) : ∀ c ∈ (sha256Hex msg).data, c.toNat ≤ 127 := by
  have hall : ∀ c ∈ "0123456789abcdef".data, c.toNat ≤ 127 := by decide
  exact fun c hc => hall _ (sha256Hex_hexchars msg c hc)

theorem pyEncodeAscii_sha256Hex (msg : List Nat) :
    pyEncodeAscii (sha256Hex msg) = some ((sha256Hex msg).data.map Char.toNat) := by
  unfold pyEncodeAscii
  rw [if_pos]
  rw [List.all_eq_true]
  intro c hc
  simpa using sha256Hex_ascii msg c hc

/-- On all-ASCII text, UTF-8 encoding is the plain code-point map, so the
default str.encode() agrees with str.encode(ascii). -/
theorem utf8Encode_of_ascii {cs : List Char} (h : ∀ c ∈ cs, c.toNat ≤ 127) :
    utf8Encode cs = cs.map Char.toNat := by
  induction cs with
  | nil => rfl
  | cons c cs ih =>
    have hc : c.toNat ≤ 127 := h c (List.mem_cons_self c cs)
    simp only [utf8Encode, List.flatMap_cons, List.map_cons] at *
    rw [ih (fun x hx => h x (List.mem_cons_of_mem c hx))]
    simp only [utf8EncodeChar]
    rw [if_pos (show c.toNat < 128 by omega)]
    rfl

/-! ## Structure of the iteration chain -/

theorem run_chain_length (s : List Nat) (n : Nat) : (run_chain s n).length = n := by
  induction n generalizing s with
  | zero => rfl
  | succ n ih => simp [run_chain, ih]

theorem run_chain_zero (s : List Nat) (n : Nat) (h : 1 ≤ n) :
    (run_chain s n)[0]? = some (sha256Hex s) := by
  cases n with
  | zero => omega
  | succ n => simp [run_chain]

theorem run_chain_mem (s : List Nat) (n : Nat) :
    ∀ d ∈ run_chain s n, ∃ m, d = sha256Hex m := by
  induction n generalizing s with
  | zero => intro d hd; cases hd
  | succ n ih =>
    intro d hd
    simp only [run_chain] at hd
    rcases List.mem_cons.mp hd with rfl | hmem
    · exact ⟨s, rfl⟩
    · exact ih _ d hmem

theorem run_chain_step (s : List Nat) (n i : Nat) (hi : i + 1 < n) (prev : String)
    (hprev : (run_chain s n)[i]? = some prev) :
    (run_chain s n)[i + 1]? = some (sha256Hex (prev.data.map Char.toNat)) := by
  induction n generalizing s i with
  | zero => omega
  | succ n ih =>
    simp only [run_chain] at hprev ⊢
    cases i with
    | zero =>
      simp only [List.getElem?_cons_zero, Option.some.injEq] at hprev
      subst hprev
      simpa using run_chain_zero _ n (by omega)
    | succ j =>
      simp only [List.getElem?_cons_succ] at hprev ⊢
      exact ih _ j (by omega) hprev

theorem run_chain_getD_step (s : List Nat) (n : Nat) (h2 : 2 ≤ n) :
    (run_chain s n).getD (n - 1) "" =
      sha256Hex (((run_chain s n).getD (n - 2) "").data.map Char.toNat) := by
  have hlen := run_chain_length s n
  have hlt2 : n - 2 < (run_chain s n).length := by omega
  have hlt1 : n - 1 < (run_chain s n).length := by omega
  rw [List.getD_eq_getElem _ _ hlt1, List.getD_eq_getElem _ _ hlt2]
  have e2 : (run_chain s n)[n - 2]? = some ((run_chain s n)[n - 2]) :=
    List.getElem?_eq_getElem hlt2
  have hstep := run_chain_step s n (n - 2) (by omega) _ e2
  rw [show n - 2 + 1 = n - 1 from by omega, List.getElem?_eq_getElem hlt1] at hstep
  exact Option.some.inj hstep

/-! ## Behaviour of the workflow for each iteration count -/

theorem selectParams_two_le (seed : String) (results : List String) (n : Nat)
    (h2 : 2 ≤ n) (hlen : results.length = n) :
    selectParams seed results n =
      .ok (results.getD (n - 2) "", results.getD (n - 1) "") := by
  unfold selectParams
  rw [if_pos (by omega : 1 < n), if_pos (by omega : 2 ≤ results.length), hlen]

theorem workflow_two_le (seed : String) (n : Nat) (h2 : 2 ≤ n) :
    complete_payment_workflow seed n =
      .ok { opt_hex := (run_chain (utf8Encode seed.data) n).getD (n - 2) "",
            tail_hex := (run_chain (utf8Encode seed.data) n).getD (n - 1) "",
            opt_ascii_bytes :=
              hex_to_ascii_bytes ((run_chain (utf8Encode seed.data) n).getD (n - 2) ""),
            tail_ascii_bytes :=
              hex_to_ascii_bytes ((run_chain (utf8Encode seed.data) n).getD (n - 1) ""),
            verification_ok := true } := by
  have hlen : (run_chain (utf8Encode seed.data) n).length = n := run_chain_length _ n
  have hlt2 : n - 2 < (run_chain (utf8Encode seed.data) n).length := by omega
  have hmem : (run_chain (utf8Encode seed.data) n).getD (n - 2) "" ∈
      run_chain (utf8Encode seed.data) n := by
    rw [List.getD_eq_getElem _ _ hlt2]
    exact List.getElem_mem hlt2
  obtain ⟨m, hm⟩ := run_chain_mem _ n _ hmem
  have henc : pyEncodeAscii ((run_chain (utf8Encode seed.data) n).getD (n - 2) "") =
      some (((run_chain (utf8Encode seed.data) n).getD (n - 2) "").data.map Char.toNat) := by
    rw [hm]; exact pyEncodeAscii_sha256Hex m
  have hver := (run_chain_getD_step (utf8Encode seed.data) n h2).symm
  simp only [complete_payment_workflow, selectParams_two_le seed _ n h2 hlen, henc, hver]
  simp

theorem workflow_zero (seed : String) :
    complete_payment_workflow seed 0 = .error .indexError := rfl

theorem workflow_one_of_ascii (seed : String)
    (h : seed.data.all (fun c => c.toNat ≤ 127) = true) :
    complete_payment_workflow seed 1 =
      .ok { opt_hex := seed, tail_hex := sha256Hex (utf8Encode seed.data),
            opt_ascii_bytes := hex_to_ascii_bytes seed,
            tail_ascii_bytes := hex_to_ascii_bytes (sha256Hex (utf8Encode seed.data)),
            verification_ok := true } := by
  have hascii : ∀ c ∈ seed.data, c.toNat ≤ 127 := by
    rw [List.all_eq_true] at h
    intro c hc
    simpa using h c hc
  have hmap : utf8Encode seed.data = seed.data.map Char.toNat := utf8Encode_of_ascii hascii
  simp only [complete_payment_workflow, selectParams, run_chain, List.head?_cons]
  rw [if_neg (by omega : ¬ 1 < 1)]
  simp only [pyEncodeAscii, if_pos h, hmap]
  simp

theorem workflow_one_of_not_ascii (seed : String)
    (h : seed.data.all (fun c => c.toNat ≤ 127) = false) :
    complete_payment_workflow seed 1 = .error .unicodeEncodeError := by
  simp only [complete_payment_workflow, selectParams, run_chain, List.head?_cons]
  rw [if_neg (by omega : ¬ 1 < 1)]
  simp only [pyEncodeAscii]
  rw [if_neg (by simp [h])]

/-! ## Sorting facts for the dict branch of the canonical encoder -/

theorem keyLE_trans (a b c : String × PyValue) (hab : keyLE a b = true)
    (hbc : keyLE b c = true) : keyLE a c = true := by
  simp only [keyLE, decide_eq_true_eq] at *
  exact le_trans hab hbc

theorem keyLE_total (a b : String × PyValue) : (keyLE a b || keyLE b a) = true := by
  simp only [keyLE, Bool.or_eq_true, decide_eq_true_eq]
  exact le_total a.1 b.1

theorem mergeSort_sorted_le (l : List (String × PyValue)) :
    (l.mergeSort keyLE).Pairwise (fun a b => keyLE a b = true) :=
  List.sorted_mergeSort keyLE_trans keyLE_total l

theorem pairwise_lt_of_sorted_le_nodup {l : List (String × PyValue)}
    (hle : l.Pairwise (fun a b => keyLE a b = true))
    (hnd : (l.map Prod.fst).Nodup) :
    l.Pairwise (fun a b => a.1 < b.1) := by
  have hne : l.Pairwise (fun a b => a.1 ≠ b.1) := List.pairwise_map.mp hnd
  refine (hle.and hne).imp ?_
  rintro a b ⟨h1, h2⟩
  simp only [keyLE, decide_eq_true_eq] at h1
  exact lt_of_le_of_ne h1 h2

theorem nodup_keys_mergeSort (l : List (String × PyValue))
    (h : (l.map Prod.fst).Nodup) : ((l.mergeSort keyLE).map Prod.fst).Nodup :=
  (((List.mergeSort_perm l keyLE).map Prod.fst).nodup_iff).mpr h

instance : IsAntisymm (String × PyValue) (fun a b => a.1 < b.1) :=
  ⟨fun _ _ h1 h2 => absurd h2 (lt_asymm h1)⟩

theorem mergeSort_eq_of_sorted {kvs : List (String × PyValue)}
    (hs : kvs.Pairwise (fun a b => a.1 < b.1)) :
    kvs.mergeSort keyLE = kvs := by
  have hnd : (kvs.map Prod.fst).Nodup :=
    List.pairwise_map.mpr (hs.imp (fun h => ne_of_lt h))
  exact List.eq_of_perm_of_sorted (List.mergeSort_perm kvs keyLE)
    (pairwise_lt_of_sorted_le_nodup (mergeSort_sorted_le kvs) (nodup_keys_mergeSort kvs hnd)) hs

theorem mergeSort_eq_of_perm {kvs kvs2 : List (String × PyValue)}
    (hp : kvs.Perm kvs2) (hnd : (kvs.map Prod.fst).Nodup) :
    kvs.mergeSort keyLE = kvs2.mergeSort keyLE := by
  have hnd2 : (kvs2.map Prod.fst).Nodup := ((hp.map Prod.fst).nodup_iff).mp hnd
  exact List.eq_of_perm_of_sorted
    ((List.mergeSort_perm kvs keyLE).trans (hp.trans (List.mergeSort_perm kvs2 keyLE).symm))
    (pairwise_lt_of_sorted_le_nodup (mergeSort_sorted_le kvs) (nodup_keys_mergeSort kvs hnd))
    (pairwise_lt_of_sorted_le_nodup (mergeSort_sorted_le kvs2) (nodup_keys_mergeSort kvs2 hnd2))

theorem serialize_dict_eq (kvs : List (String × PyValue)) :
    serialize_to_bcs_like (.dict kvs) = serializeVals (kvs.mergeSort keyLE) := by
  simp only [serialize_to_bcs_like]

theorem serialize_int_nonneg (n : Int) (h0 : ¬ n < 0) (h64 : n < 18446744073709551616) :
    serialize_to_bcs_like (.int n) = .ok (toLE8 n.toNat) := by
  simp only [serialize_to_bcs_like]
  rw [if_neg h0, if_pos h64]

/-! ## Theorems for the specification claims -/

/-- C1: for every seed and every iterations of at least 1, the chain has
exactly iterations elements; element 0 is the lowercase hex SHA-256 of the
seed bytes; element i, for i between 1 and iterations minus 1, is the
lowercase hex SHA-256 of the ASCII bytes of the 64-character hex text of
element i minus 1, not of the raw digest bytes; and every element is 64
lowercase hex characters. -/
theorem claim_chain_structure (seed : String) (iterations : Nat) (h : 1 ≤ iterations) :
    (run_chain (utf8Encode seed.data) iterations).length = iterations ∧
    (run_chain (utf8Encode seed.data) iterations)[0]? =
      some (sha256Hex (utf8Encode seed.data)) ∧
    (∀ i prev, 1 ≤ i → i < iterations →
      (run_chain (utf8Encode seed.data) iterations)[i - 1]? = some prev →
      (run_chain (utf8Encode seed.data) iterations)[i]? =
        some (sha256Hex (prev.data.map Char.toNat))) ∧
    (∀ d ∈ run_chain (utf8Encode seed.data) iterations,
      d.length = 64 ∧ ∀ c ∈ d.data, c ∈ "0123456789abcdef".data) := by
  refine ⟨run_chain_length _ _, run_chain_zero _ _ h, ?_, ?_⟩
  · intro i prev h1 h2 hprev
    have hstep := run_chain_step (utf8Encode seed.data) iterations (i - 1) (by omega) prev hprev
    rwa [show i - 1 + 1 = i from by omega] at hstep
  · intro d hd
    obtain ⟨m, rfl⟩ := run_chain_mem _ _ d hd
    exact ⟨sha256Hex_length m, sha256Hex_hexchars m⟩

/-- C1 witness at the seed a with one iteration. -/
theorem claim_chain_structure_witness :
    (1 ≤ 1) ∧
    ((run_chain (utf8Encode "a".data) 1).length = 1 ∧
     (run_chain (utf8Encode "a".data) 1)[0]? = some (sha256Hex (utf8Encode "a".data)) ∧
     (∀ i prev, 1 ≤ i → i < 1 →
       (run_chain (utf8Encode "a".data) 1)[i - 1]? = some prev →
       (run_chain (utf8Encode "a".data) 1)[i]? =
         some (sha256Hex (prev.data.map Char.toNat))) ∧
     (∀ d ∈ run_chain (utf8Encode "a".data) 1,
       d.length = 64 ∧ ∀ c ∈ d.data, c ∈ "0123456789abcdef".data)) :=
  ⟨by decide, claim_chain_structure "a" 1 (by decide)⟩

/-- C2: for every seed and every iteration count of at least 2, the workflow
succeeds and its verification flag is true: the SHA-256 of the ASCII bytes of
the second-to-last digest equals the last digest. -/
theorem claim_verify_adjacent (seed : String) (n : Nat) (h : 2 ≤ n) :
    ∃ r : WorkflowResult, complete_payment_workflow seed n = .ok r ∧
      r.verification_ok = true :=
  ⟨_, workflow_two_le seed n h, rfl⟩

/-- C2 witness at the seed hello with two iterations. -/
theorem claim_verify_adjacent_witness :
    (2 ≤ 2) ∧ ∃ r : WorkflowResult, complete_payment_workflow "hello" 2 = .ok r ∧
      r.verification_ok = true :=
  ⟨by decide, claim_verify_adjacent "hello" 2 (by decide)⟩

/-- C3: hex_to_ascii_bytes strips one optional leading 0x, then maps every
remaining character to its code point as one output element with no
hex-validity check, so the output length is the character count after the
strip; on 0xadb6 it yields 97, 100, 98, 54. -/
theorem claim_hex_bridge (s : String) :
    (hex_to_ascii_bytes s).length =
      (if s.data.take 2 = ['0', 'x'] then s.data.length - 2 else s.data.length) ∧
    (∀ i : Nat, (hex_to_ascii_bytes s)[i]? =
      ((if s.data.take 2 = ['0', 'x'] then s.data.drop 2 else s.data)[i]?).map
        Char.toNat) ∧
    hex_to_ascii_bytes "0xadb6" = [97, 100, 98, 54] := by
  refine ⟨?_, ?_, by decide⟩ <;> unfold hex_to_ascii_bytes <;> split <;>
    simp [List.getElem?_map]

/-- C6: with iterations 1 the chain is exactly one element, the hash of the
seed bytes, with no second chain step; parameter selection picks the raw seed
text as opt_hex and that single digest as tail_hex. -/
theorem claim_single_iteration (seed : String) :
    run_chain (utf8Encode seed.data) 1 = [sha256Hex (utf8Encode seed.data)] ∧
    selectParams seed (run_chain (utf8Encode seed.data) 1) 1 =
      .ok (seed, sha256Hex (utf8Encode seed.data)) := by
  constructor
  · simp [run_chain]
  · simp [selectParams, run_chain]

/-- C7: for every non-negative integer below 2 to the 64 the encoder emits
exactly the 8-byte little-endian fixed-width representation; encoding 256
yields the bytes 0, 1, 0, 0, 0, 0, 0, 0. -/
theorem claim_uint_encoding (n : Int) (h0 : 0 ≤ n) (h64 : n < 18446744073709551616) :
    serialize_to_bcs_like (.int n) = .ok (toLE8 n.toNat) ∧
    (toLE8 n.toNat).length = 8 ∧
    (∀ j, j < 8 → (toLE8 n.toNat)[j]? = some (n.toNat / 256 ^ j % 256)) ∧
    serialize_to_bcs_like (.int 256) = .ok [0, 1, 0, 0, 0, 0, 0, 0] := by
  refine ⟨serialize_int_nonneg n (by omega) h64, by simp [toLE8], ?_, ?_⟩
  · intro j hj
    simp [toLE8, List.getElem?_range hj]
  · rw [serialize_int_nonneg 256 (by omega) (by omega)]
    simp only [Except.ok.injEq]
    decide

/-- C7 witness at the value 256. -/
theorem claim_uint_encoding_witness :
    ((0 : Int) ≤ 256 ∧ (256 : Int) < 18446744073709551616) ∧
    (serialize_to_bcs_like (.int 256) = .ok (toLE8 (256 : Int).toNat) ∧
     (toLE8 (256 : Int).toNat).length = 8 ∧
     (∀ j, j < 8 → (toLE8 (256 : Int).toNat)[j]? =
       some ((256 : Int).toNat / 256 ^ j % 256)) ∧
     serialize_to_bcs_like (.int 256) = .ok [0, 1, 0, 0, 0, 0, 0, 0]) :=
  ⟨⟨by decide, by decide⟩, claim_uint_encoding 256 (by decide) (by decide)⟩

/-- C8: every negative integer is rejected with the ValueError carrying the
negative-integer message, and no byte encoding is produced. -/
theorem claim_negative_rejected (n : Int) (h : n < 0) :
    serialize_to_bcs_like (.int n) =
      .error (.valueError "BCS does not support negative integers") := by
  simp only [serialize_to_bcs_like]
  rw [if_pos h]

/-- C8 witness at minus one. -/
theorem claim_negative_rejected_witness :
    (-1 : Int) < 0 ∧
    serialize_to_bcs_like (.int (-1)) =
      .error (.valueError "BCS does not support negative integers") :=
  ⟨by decide, claim_negative_rejected (-1) (by decide)⟩

/-- C10: every integer of at least 2 to the 64 makes the encoder fail with
the overflow error rather than wrap or widen; that error is distinct from the
ValueError kind used for negative integers and unsupported types, and from
the other modelled error kinds. -/
theorem claim_overflow_distinct (n : Int) (h : 18446744073709551616 ≤ n) :
    serialize_to_bcs_like (.int n) = .error .overflowError ∧
    (∀ msg, PyErr.overflowError ≠ PyErr.valueError msg) ∧
    PyErr.overflowError ≠ PyErr.indexError ∧
    PyErr.overflowError ≠ PyErr.unicodeEncodeError := by
  refine ⟨?_, fun msg h2 => PyErr.noConfusion h2, fun h2 => PyErr.noConfusion h2,
    fun h2 => PyErr.noConfusion h2⟩
  simp only [serialize_to_bcs_like]
  rw [if_neg (by omega), if_neg (by omega)]

/-- C10 witness at exactly 2 to the 64. -/
theorem claim_overflow_distinct_witness :
    (18446744073709551616 : Int) ≤ 18446744073709551616 ∧
    (serialize_to_bcs_like (.int 18446744073709551616) = .error .overflowError ∧
     (∀ msg, PyErr.overflowError ≠ PyErr.valueError msg) ∧
     PyErr.overflowError ≠ PyErr.indexError ∧
     PyErr.overflowError ≠ PyErr.unicodeEncodeError) :=
  ⟨by decide, claim_overflow_distinct 18446744073709551616 (by decide)⟩

/-- Helper: the empty pair list serializes to the empty byte list. -/
theorem serializeVals_nil : serializeVals [] = .ok [] := by
  simp only [serializeVals]

/-- C4: the canonical encoding of a keyed mapping is the concatenation of the
encodings of the values in ascending lexicographic key order, with no length
prefix and no key bytes emitted, so two mappings with the same key-value
pairs in different insertion orders encode identically; in particular the two
insertion orders of the mapping a to 1, b to 2 agree and produce the two
little-endian words of 1 and 2. -/
theorem claim_dict_canonical :
    (∀ kvs : List (String × PyValue), kvs.Pairwise (fun a b => a.1 < b.1) →
      serialize_to_bcs_like (.dict kvs) = serializeVals kvs) ∧
    (∀ (kv : String × PyValue) (rest : List (String × PyValue)) (bs tl : List Nat),
      serialize_to_bcs_like kv.2 = .ok bs → serializeVals rest = .ok tl →
      serializeVals (kv :: rest) = .ok (bs ++ tl)) ∧
    (∀ kvs kvs2 : List (String × PyValue), kvs.Perm kvs2 → (kvs.map Prod.fst).Nodup →
      serialize_to_bcs_like (.dict kvs) = serialize_to_bcs_like (.dict kvs2)) ∧
    serialize_to_bcs_like (.dict [("a", .int 1), ("b", .int 2)]) =
      .ok (toLE8 1 ++ toLE8 2) ∧
    serialize_to_bcs_like (.dict [("b", .int 2), ("a", .int 1)]) =
      serialize_to_bcs_like (.dict [("a", .int 1), ("b", .int 2)]) := by
  have hsorted : ∀ kvs : List (String × PyValue), kvs.Pairwise (fun a b => a.1 < b.1) →
      serialize_to_bcs_like (.dict kvs) = serializeVals kvs := by
    intro kvs hs
    rw [serialize_dict_eq, mergeSort_eq_of_sorted hs]
  have hcons : ∀ (kv : String × PyValue) (rest : List (String × PyValue)) (bs tl : List Nat),
      serialize_to_bcs_like kv.2 = .ok bs → serializeVals rest = .ok tl →
      serializeVals (kv :: rest) = .ok (bs ++ tl) := by
    intro kv rest bs tl h1 h2
    simp only [serializeVals, h1, h2]
  have hperm : ∀ kvs kvs2 : List (String × PyValue), kvs.Perm kvs2 →
      (kvs.map Prod.fst).Nodup →
      serialize_to_bcs_like (.dict kvs) = serialize_to_bcs_like (.dict kvs2) := by
    intro kvs kvs2 hp hnd
    rw [serialize_dict_eq, serialize_dict_eq, mergeSort_eq_of_perm hp hnd]
  have hexample : serialize_to_bcs_like (.dict [("a", .int 1), ("b", .int 2)]) =
      .ok (toLE8 1 ++ toLE8 2) := by
    rw [hsorted _ (by simp [List.pairwise_cons]; decide)]
    rw [hcons _ _ _ _ (serialize_int_nonneg 1 (by omega) (by omega))
      (hcons _ _ _ _ (serialize_int_nonneg 2 (by omega) (by omega)) serializeVals_nil)]
    simp
  refine ⟨hsorted, hcons, hperm, hexample, ?_⟩
  exact hperm _ _ (List.Perm.swap ("a", PyValue.int 1) ("b", PyValue.int 2) []) (by decide)

/-- C4 witness: instances of the sorted-concatenation law and of insertion
order independence at the two-entry mapping. -/
theorem claim_dict_canonical_witness :
    serialize_to_bcs_like (.dict [("a", PyValue.int 1), ("b", PyValue.int 2)]) =
      serializeVals [("a", PyValue.int 1), ("b", PyValue.int 2)] ∧
    serialize_to_bcs_like (.dict [("b", PyValue.int 2), ("a", PyValue.int 1)]) =
      serialize_to_bcs_like (.dict [("a", PyValue.int 1), ("b", PyValue.int 2)]) :=
  ⟨claim_dict_canonical.1 _ (by simp [List.pairwise_cons]; decide),
   claim_dict_canonical.2.2.1 _ _ (List.Perm.swap ("a", PyValue.int 1) ("b", PyValue.int 2) [])
     (by decide)⟩

/-- C5 counterexample: iterations 1 satisfies iterations at least 1, yet the
workflow fails on a non-ASCII seed, so the claim that only iterations 0 can
fail is false. -/
theorem claim_no_other_failure_cex :
    complete_payment_workflow "é" 1 = .error .unicodeEncodeError :=
  workflow_one_of_not_ascii "é" (by decide)

/-- C5 amended: with iterations 0 the workflow fails with the list-index
error of reading the first element of the empty chain, not a dedicated
invalid-argument rejection; with iterations at least 2 it always succeeds;
with iterations 1 it succeeds exactly when the seed is all ASCII, failing
with a Unicode encode error otherwise. -/
theorem claim_failure_modes_amended (seed : String) (iters : Nat) (h2 : 2 ≤ iters) :
    complete_payment_workflow seed 0 = .error .indexError ∧
    (∃ r, complete_payment_workflow seed iters = .ok r) ∧
    (seed.data.all (fun c => c.toNat ≤ 127) = true →
      ∃ r, complete_payment_workflow seed 1 = .ok r) ∧
    (seed.data.all (fun c => c.toNat ≤ 127) = false →
      complete_payment_workflow seed 1 = .error .unicodeEncodeError) := by
  refine ⟨workflow_zero seed, ⟨_, workflow_two_le seed iters h2⟩, ?_, ?_⟩
  · intro hall
    exact ⟨_, workflow_one_of_ascii seed hall⟩
  · exact workflow_one_of_not_ascii seed

/-- C5 amended witness at the all-ASCII seed ab and the non-ASCII accented
seed, with two iterations for the always-succeeds conjunct. -/
theorem claim_failure_modes_amended_witness :
    (2 ≤ 2) ∧
    complete_payment_workflow "ab" 0 = .error .indexError ∧
    (∃ r, complete_payment_workflow "ab" 2 = .ok r) ∧
    (∃ r, complete_payment_workflow "ab" 1 = .ok r) ∧
    complete_payment_workflow "é" 1 = .error .unicodeEncodeError :=
  ⟨by decide, (claim_failure_modes_amended "ab" 2 (by decide)).1,
   (claim_failure_modes_amended "ab" 2 (by decide)).2.1,
   (claim_failure_modes_amended "ab" 2 (by decide)).2.2.1 (by decide),
   (claim_failure_modes_amended "é" 2 (by decide)).2.2.2 (by decide)⟩

/-- C9: in the degenerate single-iteration case an all-ASCII seed makes the
workflow succeed with opt_hex the raw seed text, tail_hex the hash of the
seed bytes, and verification true, because the SHA-256 of the ASCII bytes of
the seed equals the SHA-256 of its UTF-8 bytes; a seed with a non-ASCII
character instead fails with the Unicode encode error. -/
theorem claim_degenerate_verification (seed : String) :
    (seed.data.all (fun c => c.toNat ≤ 127) = true →
      complete_payment_workflow seed 1 =
        .ok { opt_hex := seed, tail_hex := sha256Hex (utf8Encode seed.data),
              opt_ascii_bytes := hex_to_ascii_bytes seed,
              tail_ascii_bytes := hex_to_ascii_bytes (sha256Hex (utf8Encode seed.data)),
              verification_ok := true } ∧
      sha256Hex (seed.data.map Char.toNat) = sha256Hex (utf8Encode seed.data)) ∧
    (seed.data.all (fun c => c.toNat ≤ 127) = false →
      complete_payment_workflow seed 1 = .error .unicodeEncodeError) := by
  constructor
  · intro hall
    have hascii : ∀ c ∈ seed.data, c.toNat ≤ 127 := by
      rw [List.all_eq_true] at hall
      intro c hc
      simpa using hall c hc
    exact ⟨workflow_one_of_ascii seed hall, by rw [utf8Encode_of_ascii hascii]⟩
  · exact workflow_one_of_not_ascii seed

/-- C9 witness at the ASCII seed ab and at a seed with one accented letter. -/
theorem claim_degenerate_verification_witness :
    ("ab".data.all (fun c => c.toNat ≤ 127) = true ∧
     (complete_payment_workflow "ab" 1 =
        .ok { opt_hex := "ab", tail_hex := sha256Hex (utf8Encode "ab".data),
              opt_ascii_bytes := hex_to_ascii_bytes "ab",
              tail_ascii_bytes := hex_to_ascii_bytes (sha256Hex (utf8Encode "ab".data)),
              verification_ok := true } ∧
      sha256Hex ("ab".data.map Char.toNat) = sha256Hex (utf8Encode "ab".data))) ∧
    ("é".data.all (fun c => c.toNat ≤ 127) = false ∧
     complete_payment_workflow "é" 1 = .error .unicodeEncodeError) :=
  ⟨⟨by decide, (claim_degenerate_verification "ab").1 (by decide)⟩,
   ⟨by decide, (claim_degenerate_verification "é").2 (by decide)⟩⟩

end TinyPay
